import Mathlib

/-
Verification development for the starship-watcher bot (src/main.py).

The embedding models the polling-and-deduplication core:
  - `last_seen_times` / `icao_to_reg`   : the tracked-entity tables (lines 42-58),
  - `check_aircraft_states`             : one polling cycle (lines 81-123),
  - `processRows`                       : the per-row loop of lines 117-123,
  - `send_alert_to_guilds`              : the fanout of lines 208-219,
  - `setchannel`                        : the admin command of lines 163-185.

Python dicts keyed by strings are modelled as association lists with
`dictGet` / `dictSet` (assignment updates an existing key in place and
appends a fresh key, exactly like a dict).  Timestamps are `Int`
(`int(time.time())` arithmetic never truncates).  An observation row is
abstracted to its index-0 field, the icao24 string, which is the only
field the loop reads.  Network sends are recorded as an explicit effect
trace so that ordering, skipping and failure isolation are visible.
-/

namespace StarshipBot

/-- A Python string-keyed dict as an association list. -/
abbrev Dict (α : Type) := List (String × α)

/-- `channel_config`: guild-id string to channel id. -/
abbrev Config := Dict Int

/-- `last_seen_times`: icao24 to last-alert unix timestamp. -/
abbrev LastSeen := Dict Int

/-- Dict read: `m.get(k)` / `m[k]`. -/
def dictGet {α : Type} (k : String) : Dict α → Option α
  | [] => none
  | p :: rest => if p.1 = k then some p.2 else dictGet k rest

/-- Dict assignment `m[k] = v`: overwrite in place when the key exists,
append otherwise. -/
def dictSet {α : Type} (m : Dict α) (k : String) (v : α) : Dict α :=
  if (dictGet k m).isSome then
    m.map (fun p => if p.1 = k then (k, v) else p)
  else
    m ++ [(k, v)]

/-- The cooldown constant `28800` from line 119 (8 hours). -/
def COOLDOWN_SECONDS : Int := 28800

/-- The polling period from the `seconds=90` argument on line 81. -/
def LOOP_PERIOD : Nat := 90

/-- Lines 42-49: every tracked aircraft starts with last-alert time 0. -/
def last_seen_times : LastSeen :=
  [("a671d3", 0), ("ab42a6", 0), ("ab1bdc", 0),
   ("a5704b", 0), ("a9b044", 0), ("ac7be4", 0)]

/-- Lines 51-58: icao24 code to registration label. -/
def icao_to_reg : Dict String :=
  [("a671d3", "N514RS"), ("ab42a6", "N8244L"), ("ab1bdc", "N8149S"),
   ("a5704b", "N45FL"), ("a9b044", "N723SC"), ("ac7be4", "N903SC")]

/-- The spec's SightingEvent record (§3): one alert firing. -/
structure SightingEvent where
  entityId : String
  label : String
  observedAt : Int
deriving DecidableEq, Repr

/-- Outcome of one `channel.send` attempt (line 217): either it returns
or it raises and is caught by the `except` on line 218. -/
inductive SendOutcome where
  | delivered
  | failed
deriving DecidableEq, Repr

/-- Observable effects of one polling cycle, in program order. -/
inductive Effect where
  | send (guildId : String) (message : String) (outcome : SendOutcome)
  | commit (icao24 : String) (t : Int)
deriving DecidableEq, Repr

/-- The slice of a `discord.Guild` that `send_alert_to_guilds` reads:
its id (already as the `str(guild.id)` key), whether `get_channel(cid)`
yields a `TextChannel`, whether the bot may send there, and whether
`channel.send` raises. -/
structure Guild where
  id : String
  isTextChannel : Int → Bool
  canSendIn : Int → Bool
  sendFails : Int → Bool

/-- The f-string on line 121. -/
def alertMessage (reg icao24 : String) : String :=
  "🚀 Starship " ++ reg ++ " has been spotted!\nhttps://globe.adsbexchange.com/?icao=" ++ icao24

/-- One iteration of the fanout loop body (lines 210-219) for one guild:
`none` means the guild was skipped (unconfigured, falsy channel id, not a
text channel, or no send permission); `some` records the attempt. -/
def guildAttempt (cfg : Config) (g : Guild) : Option (String × SendOutcome) :=
  match dictGet g.id cfg with
  | none => none
  | some channel_id =>
    if channel_id = 0 then none
    else if g.isTextChannel channel_id && g.canSendIn channel_id then
      if g.sendFails channel_id then some (g.id, SendOutcome.failed)
      else some (g.id, SendOutcome.delivered)
    else none

/-- Lines 208-219: iterate over `bot.guilds`, attempting one send per
configured, resolvable, permitted guild; a raised send is caught and
logged, never propagated. -/
def send_alert_to_guilds (guilds : List Guild) (cfg : Config) (message : String) :
    List (String × SendOutcome) :=
  guilds.filterMap (fun g => guildAttempt cfg g)

/-- The fanout attempts of one broadcast, as effects carrying the message. -/
def broadcastEffects (guilds : List Guild) (cfg : Config) (message : String) : List Effect :=
  (send_alert_to_guilds guilds cfg message).map (fun p => Effect.send p.1 message p.2)

/-- Lines 117-123: the per-row loop.  For each row's icao24, if it is a
tracked key and `now - last_seen_times[icao24] > 28800`, build the
message, await the fanout, then assign `last_seen_times[icao24] = now`.
Returns the effect trace and the final table. -/
def processRows (guilds : List Guild) (cfg : Config) :
    List String → LastSeen → Int → List Effect × LastSeen
  | [], st, _ => ([], st)
  | icao24 :: rest, st, now =>
    match dictGet icao24 st with
    | some lastSeen =>
      if now - lastSeen > COOLDOWN_SECONDS then
        let reg := (dictGet icao24 icao_to_reg).getD ""
        let message := alertMessage reg icao24
        let r := processRows guilds cfg rest (dictSet st icao24 now) now
        (broadcastEffects guilds cfg message ++ Effect.commit icao24 now :: r.1, r.2)
      else processRows guilds cfg rest st now
    | none => processRows guilds cfg rest st now

/-- The cycle-relevant outcome of the two network calls of lines 92-113:
the token POST status, the states GET status, and `data.get("states")`
(each row abstracted to its index-0 icao24 field), plus `int(time.time())`. -/
structure CycleInput where
  tokenStatus : Nat
  apiStatus : Nat
  states : Option (List String)
  now : Int

/-- Lines 82-123: one polling cycle.  A non-200 on either call returns
with nothing done; a missing/null `states` payload likewise; otherwise
the rows are processed. -/
def check_aircraft_states (inp : CycleInput) (guilds : List Guild) (cfg : Config)
    (st : LastSeen) : List Effect × LastSeen :=
  if inp.tokenStatus ≠ 200 then ([], st)
  else if inp.apiStatus ≠ 200 then ([], st)
  else
    match inp.states with
    | none => ([], st)
    | some rows => processRows guilds cfg rows st inp.now

/-- The SightingEvents of an effect trace: one per committed firing (a
firing is exactly a broadcast followed by its commit). -/
def sightingEvents (tr : List Effect) : List SightingEvent :=
  tr.filterMap (fun e =>
    match e with
    | Effect.commit i t => some ⟨i, (dictGet i icao_to_reg).getD "", t⟩
    | _ => none)

/-- Whether the trace fires an alert for entity `E`. -/
def firesFor (E : String) (tr : List Effect) : Bool :=
  (sightingEvents tr).any (fun ev => ev.entityId == E)

/-- The timestamps committed for entity `E`, in trace order. -/
def commitsFor (E : String) (tr : List Effect) : List Int :=
  tr.filterMap (fun e =>
    match e with
    | Effect.commit i t => if i == E then some t else none
    | _ => none)

/-- The guild ids that actually received the message, in registry order. -/
def deliveredIds (attempts : List (String × SendOutcome)) : List String :=
  attempts.filterMap (fun p =>
    match p.2 with
    | SendOutcome.delivered => some p.1
    | SendOutcome.failed => none)

/-- Modelled from the spec: the pure Sighting Evaluator of §4.2,
`evaluate(observations, trackedEntities, now) -> list of SightingEvent`.
The source has no separate evaluator function (the loop of lines 117-123
interleaves decisions with commits); this definition follows the spec's
words: fire when `now - lastAlertAt > COOLDOWN_SECONDS` and treat the
entity's `lastAlertAt` as updated to `now` for the rest of the pass. -/
def evaluate : List String → LastSeen → Int → List SightingEvent
  | [], _, _ => []
  | icao24 :: rest, tracked, now =>
    match dictGet icao24 tracked with
    | some lastAlertAt =>
      if now - lastAlertAt > COOLDOWN_SECONDS then
        ⟨icao24, (dictGet icao24 icao_to_reg).getD "", now⟩ ::
          evaluate rest (dictSet tracked icao24 now) now
      else evaluate rest tracked now
    | none => evaluate rest tracked now

/-- The caller-side commit of §4.2: fold the produced events back into
the tracked table. -/
def commitEvents (st : LastSeen) (evs : List SightingEvent) : LastSeen :=
  evs.foldl (fun m ev => dictSet m ev.entityId ev.observedAt) st

/-- The slice of a `discord.Interaction` that `setchannel` reads:
whether `interaction.guild` is set, its id (as `str(guild.id)`), whether
`interaction.user` is a `Member`, the admin permission bit, and the
invoking channel's id. -/
structure Interaction where
  hasGuild : Bool
  guildId : String
  isMember : Bool
  isAdmin : Bool
  channelId : Int

/-- The user-facing reply of `setchannel`. -/
inductive SetChannelReply where
  | errServerOnly
  | errCantVerify
  | errNotAdmin
  | ok
deriving DecidableEq, Repr

/-- Result of one `setchannel` invocation: the reply, the in-memory
`channel_config` afterwards, and whether `save_config` rewrote the file. -/
structure SetChannelResult where
  reply : SetChannelReply
  config : Config
  persisted : Bool
deriving Repr

/-- Lines 163-185: the `/setchannel` command.  Guard order as in the
source: no guild, then not a `Member`, then not an administrator; only
then upsert `channel_config[guild_id]` and persist. -/
def setchannel (i : Interaction) (cfg : Config) : SetChannelResult :=
  if !i.hasGuild then ⟨SetChannelReply.errServerOnly, cfg, false⟩
  else if !i.isMember then ⟨SetChannelReply.errCantVerify, cfg, false⟩
  else if !i.isAdmin then ⟨SetChannelReply.errNotAdmin, cfg, false⟩
  else ⟨SetChannelReply.ok, dictSet cfg i.guildId i.channelId, true⟩

/-- Log record of one scheduler tick. -/
structure TickRecord where
  index : Nat
  scheduledAt : Nat
  ok : Bool
deriving DecidableEq, Repr

/-- Modelled from the spec: the fixed-period Scheduler of §4.4.  Only
the 90-second period (`seconds=90`, line 81) is in the source; the loop
machinery lives in the external `tasks.loop` collaborator.  Each tick
`i` is scheduled at `LOOP_PERIOD * i`; a cycle that raises is caught and
logged (`ok := false`) with the state left unchanged, and the next tick
is still run. -/
def run_loop (cycle : Nat → LastSeen → Except String (List Effect × LastSeen)) :
    Nat → Nat → LastSeen → LastSeen × List TickRecord
  | _, 0, st => (st, [])
  | i, n + 1, st =>
    match cycle i st with
    | Except.error _ =>
      let r := run_loop cycle (i + 1) n st
      (r.1, ⟨i, LOOP_PERIOD * i, false⟩ :: r.2)
    | Except.ok res =>
      let r := run_loop cycle (i + 1) n res.2
      (r.1, ⟨i, LOOP_PERIOD * i, true⟩ :: r.2)

/-! Dictionary lemmas. -/

theorem dictGet_append_of_none {α : Type} {k : String} {m1 : Dict α} (m2 : Dict α)
    (h : dictGet k m1 = none) : dictGet k (m1 ++ m2) = dictGet k m2 := by
  induction m1 with
  | nil => simp
  | cons p rest ih =>
    by_cases hp : p.1 = k
    · simp [dictGet, hp] at h
    · simp [dictGet, hp] at h ⊢
      exact ih h

theorem dictGet_append_of_some {α : Type} {k : String} {m1 : Dict α} (m2 : Dict α) {v : α}
    (h : dictGet k m1 = some v) : dictGet k (m1 ++ m2) = some v := by
  induction m1 with
  | nil => simp [dictGet] at h
  | cons p rest ih =>
    by_cases hp : p.1 = k
    · simp [dictGet, hp] at h ⊢
      exact h
    · simp [dictGet, hp] at h ⊢
      exact ih h

theorem dictGet_map_replace {α : Type} {k : String} {m : Dict α} (v : α)
    (h : (dictGet k m).isSome = true) :
    dictGet k (m.map (fun p => if p.1 = k then (k, v) else p)) = some v := by
  induction m with
  | nil => simp [dictGet] at h
  | cons p rest ih =>
    by_cases hp : p.1 = k
    · simp [dictGet, hp]
    · simp [dictGet, hp] at h ⊢
      exact ih h

theorem dictGet_map_replace_other {α : Type} {k' k : String} {m : Dict α} (v : α)
    (h : k' ≠ k) :
    dictGet k' (m.map (fun p => if p.1 = k then (k, v) else p)) = dictGet k' m := by
  induction m with
  | nil => simp
  | cons p rest ih =>
    by_cases hp : p.1 = k
    · have h1 : ¬(k = k') := fun hh => h hh.symm
      have h2 : ¬(p.1 = k') := by rw [hp]; exact h1
      simp only [List.map_cons, if_pos hp, dictGet]
      rw [if_neg h1, if_neg h2]
      exact ih
    · simp only [List.map_cons, if_neg hp, dictGet]
      by_cases hq : p.1 = k'
      · simp [hq]
      · rw [if_neg hq, if_neg hq]
        exact ih

theorem dictGet_dictSet_self {α : Type} (m : Dict α) (k : String) (v : α) :
    dictGet k (dictSet m k v) = some v := by
  unfold dictSet
  by_cases h : (dictGet k m).isSome
  · rw [if_pos h]
    exact dictGet_map_replace v h
  · rw [if_neg h]
    have hn : dictGet k m = none := by
      cases hh : dictGet k m
      · rfl
      · rw [hh] at h; simp at h
    rw [dictGet_append_of_none _ hn]
    simp [dictGet]

theorem dictGet_dictSet_other {α : Type} (m : Dict α) (k k' : String) (v : α)
    (h : k' ≠ k) : dictGet k' (dictSet m k v) = dictGet k' m := by
  unfold dictSet
  by_cases hs : (dictGet k m).isSome
  · rw [if_pos hs]
    exact dictGet_map_replace_other v h
  · rw [if_neg hs]
    cases hh : dictGet k' m
    · rw [dictGet_append_of_none _ hh]
      simp [dictGet, Ne.symm h]
    · exact dictGet_append_of_some _ hh

/-! Trace-extraction lemmas. -/

@[simp] theorem sightingEvents_nil : sightingEvents [] = [] := rfl

@[simp] theorem sightingEvents_append (a b : List Effect) :
    sightingEvents (a ++ b) = sightingEvents a ++ sightingEvents b := by
  simp [sightingEvents]

@[simp] theorem sightingEvents_send (gid msg : String) (o : SendOutcome) (tr : List Effect) :
    sightingEvents (Effect.send gid msg o :: tr) = sightingEvents tr := by
  simp [sightingEvents, List.filterMap_cons]

@[simp] theorem sightingEvents_commit (i : String) (t : Int) (tr : List Effect) :
    sightingEvents (Effect.commit i t :: tr) =
      ⟨i, (dictGet i icao_to_reg).getD "", t⟩ :: sightingEvents tr := by
  simp [sightingEvents, List.filterMap_cons]

@[simp] theorem sightingEvents_broadcast (g : List Guild) (c : Config) (msg : String) :
    sightingEvents (broadcastEffects g c msg) = [] := by
  unfold broadcastEffects
  generalize send_alert_to_guilds g c msg = l
  induction l with
  | nil => rfl
  | cons p rest ih => simp [ih]

@[simp] theorem commitsFor_nil (E : String) : commitsFor E [] = [] := rfl

@[simp] theorem commitsFor_send (E gid msg : String) (o : SendOutcome) (tr : List Effect) :
    commitsFor E (Effect.send gid msg o :: tr) = commitsFor E tr := by
  simp [commitsFor, List.filterMap_cons]

@[simp] theorem commitsFor_commit (E i : String) (t : Int) (tr : List Effect) :
    commitsFor E (Effect.commit i t :: tr) =
      if i = E then t :: commitsFor E tr else commitsFor E tr := by
  by_cases h : i = E <;> simp [commitsFor, List.filterMap_cons, h]

@[simp] theorem commitsFor_append (E : String) (a b : List Effect) :
    commitsFor E (a ++ b) = commitsFor E a ++ commitsFor E b := by
  simp [commitsFor]

@[simp] theorem commitsFor_broadcast (E : String) (g : List Guild) (c : Config) (msg : String) :
    commitsFor E (broadcastEffects g c msg) = [] := by
  unfold broadcastEffects
  generalize send_alert_to_guilds g c msg = l
  induction l with
  | nil => rfl
  | cons p rest ih => simp [ih]

/-- Each commit in a trace corresponds to exactly one sighting event. -/
theorem commitsFor_eq_events (E : String) (tr : List Effect) :
    commitsFor E tr =
      ((sightingEvents tr).filter (fun ev => ev.entityId == E)).map
        (fun ev => ev.observedAt) := by
  induction tr with
  | nil => rfl
  | cons e rest ih =>
    cases e with
    | send gid msg o => simpa using ih
    | commit i t =>
      by_cases h : i = E <;> simp [h, ih]

@[simp] theorem deliveredIds_append (a b : List (String × SendOutcome)) :
    deliveredIds (a ++ b) = deliveredIds a ++ deliveredIds b := by
  simp [deliveredIds]

theorem firesFor_true_iff (E : String) (tr : List Effect) :
    firesFor E tr = true ↔
      0 < (sightingEvents tr).countP (fun ev => ev.entityId == E) := by
  simp [firesFor, List.any_eq_true, List.countP_pos_iff]

theorem firesFor_false_iff (E : String) (tr : List Effect) :
    firesFor E tr = false ↔
      (sightingEvents tr).countP (fun ev => ev.entityId == E) = 0 := by
  rw [← Bool.not_eq_true, firesFor_true_iff]
  omega

/-! Core lemmas about the per-row loop. -/

/-- An entity inside its cooldown window neither fires nor has its
timestamp touched during a pass. -/
theorem processRows_cooldown (g : List Guild) (c : Config) (rows : List String)
    (st : LastSeen) (now : Int) (k : String) (t : Int)
    (hk : dictGet k st = some t) (hcool : now - t ≤ COOLDOWN_SECONDS) :
    (sightingEvents (processRows g c rows st now).1).countP (fun ev => ev.entityId == k) = 0 ∧
    dictGet k (processRows g c rows st now).2 = some t := by
  induction rows generalizing st with
  | nil =>
    refine ⟨by simp [processRows], ?_⟩
    simpa [processRows] using hk
  | cons icao rest ih =>
    cases hd : dictGet icao st with
    | none =>
      simp only [processRows, hd]
      exact ih st hk
    | some L =>
      by_cases hf : now - L > COOLDOWN_SECONDS
      · have hne : icao ≠ k := by
          intro he
          rw [he, hk] at hd
          cases hd
          linarith
        have hk' : dictGet k (dictSet st icao now) = some t := by
          rw [dictGet_dictSet_other st icao k now (Ne.symm hne)]
          exact hk
        obtain ⟨ihc, ihs⟩ := ih (dictSet st icao now) hk'
        simp only [processRows, hd, if_pos hf]
        constructor
        · simp [List.countP_append, List.countP_cons, ihc, hne]
        · exact ihs
      · simp only [processRows, hd, if_neg hf]
        exact ih st hk

/-- Firing for `E` in a fire-block trace reduces to the block's commit
or the rest of the trace. -/
theorem firesFor_fire_cons (E icao : String) (t : Int) (g : List Guild) (c : Config)
    (msg : String) (tr : List Effect) :
    firesFor E (broadcastEffects g c msg ++ Effect.commit icao t :: tr) =
      ((icao == E) || firesFor E tr) := by
  simp [firesFor]

/-- A fired entity's timestamp ends the pass committed at `now`. -/
theorem processRows_fired_state (g : List Guild) (c : Config) (rows : List String)
    (st : LastSeen) (now : Int) (k : String)
    (h : firesFor k (processRows g c rows st now).1 = true) :
    dictGet k (processRows g c rows st now).2 = some now := by
  induction rows generalizing st with
  | nil => simp [processRows, firesFor] at h
  | cons icao rest ih =>
    cases hd : dictGet icao st with
    | none =>
      simp only [processRows, hd] at h ⊢
      exact ih st h
    | some L =>
      by_cases hf : now - L > COOLDOWN_SECONDS
      · simp only [processRows, hd, if_pos hf] at h ⊢
        by_cases he : icao = k
        · subst he
          exact (processRows_cooldown g c rest (dictSet st icao now) now icao now
            (dictGet_dictSet_self st icao now) (by unfold COOLDOWN_SECONDS; omega)).2
        · rw [firesFor_fire_cons] at h
          have hico : (icao == k) = false := by simp [he]
          rw [hico, Bool.false_or] at h
          exact ih (dictSet st icao now) h
      · simp only [processRows, hd, if_neg hf] at h ⊢
        exact ih st h

/-- A single pass fires each entity at most once, duplicates or not. -/
theorem processRows_count_le_one (g : List Guild) (c : Config) (rows : List String)
    (st : LastSeen) (now : Int) (k : String) :
    (sightingEvents (processRows g c rows st now).1).countP (fun ev => ev.entityId == k) ≤ 1 := by
  induction rows generalizing st with
  | nil => simp [processRows]
  | cons icao rest ih =>
    cases hd : dictGet icao st with
    | none =>
      simp only [processRows, hd]
      exact ih st
    | some L =>
      by_cases hf : now - L > COOLDOWN_SECONDS
      · simp only [processRows, hd, if_pos hf]
        by_cases he : icao = k
        · subst he
          have h0 := (processRows_cooldown g c rest (dictSet st icao now) now icao now
            (dictGet_dictSet_self st icao now) (by unfold COOLDOWN_SECONDS; omega)).1
          simp [List.countP_append, List.countP_cons, h0]
        · have hico : (icao == k) = false := by simp [he]
          simp only [sightingEvents_append, sightingEvents_broadcast, sightingEvents_commit,
            List.nil_append, List.countP_cons, List.countP_append, hico, if_false]
          simpa using ih (dictSet st icao now)
      · simp only [processRows, hd, if_neg hf]
        exact ih st

/-- An observed, tracked entity outside its cooldown window fires. -/
theorem processRows_fires_of_eligible (g : List Guild) (c : Config) (rows : List String)
    (now : Int) (E : String) :
    ∀ (st : LastSeen) (t : Int), E ∈ rows → dictGet E st = some t →
      now - t > COOLDOWN_SECONDS →
      firesFor E (processRows g c rows st now).1 = true := by
  induction rows with
  | nil =>
    intro st t hmem _ _
    cases hmem
  | cons icao rest ih =>
    intro st t hmem hE h
    by_cases he : icao = E
    · subst he
      simp only [processRows, hE, if_pos h]
      rw [firesFor_fire_cons]
      simp
    · have hmem' : E ∈ rest := by
        cases hmem with
        | head => exact absurd rfl he
        | tail _ hm => exact hm
      cases hd : dictGet icao st with
      | none =>
        simp only [processRows, hd]
        exact ih st t hmem' hE h
      | some L =>
        by_cases hf : now - L > COOLDOWN_SECONDS
        · simp only [processRows, hd, if_pos hf]
          rw [firesFor_fire_cons]
          have hE' : dictGet E (dictSet st icao now) = some t := by
            rw [dictGet_dictSet_other st icao E now (Ne.symm he)]
            exact hE
          rw [ih (dictSet st icao now) t hmem' hE' h]
          simp
        · simp only [processRows, hd, if_neg hf]
          exact ih st t hmem' hE h

/-- Every sighting event of a pass is observed at that pass's `now`. -/
theorem processRows_observedAt (g : List Guild) (c : Config) (rows : List String) :
    ∀ (st : LastSeen) (now : Int) (ev : SightingEvent),
      ev ∈ sightingEvents (processRows g c rows st now).1 → ev.observedAt = now := by
  induction rows with
  | nil =>
    intro st now ev h
    simp [processRows] at h
  | cons icao rest ih =>
    intro st now ev h
    cases hd : dictGet icao st with
    | none =>
      simp only [processRows, hd] at h
      exact ih st now ev h
    | some L =>
      by_cases hf : now - L > COOLDOWN_SECONDS
      · simp only [processRows, hd, if_pos hf, sightingEvents_append, sightingEvents_broadcast,
          sightingEvents_commit, List.nil_append, List.mem_cons] at h
        rcases h with h | h
        · simp [h]
        · exact ih (dictSet st icao now) now ev h
      · simp only [processRows, hd, if_neg hf] at h
        exact ih st now ev h

/-- The pass's sighting events are exactly the pure evaluator's output. -/
theorem processRows_events (g : List Guild) (c : Config) (rows : List String) :
    ∀ (st : LastSeen) (now : Int),
      sightingEvents (processRows g c rows st now).1 = evaluate rows st now := by
  induction rows with
  | nil =>
    intro st now
    simp [processRows, evaluate]
  | cons icao rest ih =>
    intro st now
    cases hd : dictGet icao st with
    | none =>
      simp only [processRows, evaluate, hd]
      exact ih st now
    | some L =>
      by_cases hf : now - L > COOLDOWN_SECONDS
      · simp only [processRows, evaluate, hd, if_pos hf, sightingEvents_append,
          sightingEvents_broadcast, sightingEvents_commit, List.nil_append]
        rw [ih]
      · simp only [processRows, evaluate, hd, if_neg hf]
        exact ih st now

/-- The pass's final table is the caller-side commit of the evaluator's
output into the starting table. -/
theorem processRows_state (g : List Guild) (c : Config) (rows : List String) :
    ∀ (st : LastSeen) (now : Int),
      (processRows g c rows st now).2 = commitEvents st (evaluate rows st now) := by
  induction rows with
  | nil =>
    intro st now
    simp [processRows, evaluate, commitEvents]
  | cons icao rest ih =>
    intro st now
    cases hd : dictGet icao st with
    | none =>
      simp only [processRows, evaluate, hd]
      exact ih st now
    | some L =>
      by_cases hf : now - L > COOLDOWN_SECONDS
      · simp only [processRows, evaluate, hd, if_pos hf]
        rw [ih]
        rfl
      · simp only [processRows, evaluate, hd, if_neg hf]
        exact ih st now

/-- The pass's whole effect trace is one block per evaluator event: the
fanout attempts of that event's message, then its commit. -/
theorem processRows_trace (g : List Guild) (c : Config) (rows : List String) :
    ∀ (st : LastSeen) (now : Int),
      (processRows g c rows st now).1 =
        (evaluate rows st now).flatMap (fun ev =>
          broadcastEffects g c (alertMessage ev.label ev.entityId) ++
            [Effect.commit ev.entityId ev.observedAt]) := by
  induction rows with
  | nil =>
    intro st now
    simp [processRows, evaluate]
  | cons icao rest ih =>
    intro st now
    cases hd : dictGet icao st with
    | none =>
      simp only [processRows, evaluate, hd]
      exact ih st now
    | some L =>
      by_cases hf : now - L > COOLDOWN_SECONDS
      · simp only [processRows, evaluate, hd, if_pos hf, List.flatMap_cons]
        rw [ih]
        simp
      · simp only [processRows, evaluate, hd, if_neg hf]
        exact ih st now

/-- A pass only ever overwrites a timestamp with the strictly larger
`now`, and only when the cooldown had strictly elapsed. -/
theorem processRows_mutation (g : List Guild) (c : Config) (rows : List String) :
    ∀ (st : LastSeen) (now : Int) (k : String),
      dictGet k (processRows g c rows st now).2 ≠ dictGet k st →
      ∃ told, dictGet k st = some told ∧
        dictGet k (processRows g c rows st now).2 = some now ∧
        now - told > COOLDOWN_SECONDS ∧ told < now := by
  induction rows with
  | nil =>
    intro st now k h
    simp [processRows] at h
  | cons icao rest ih =>
    intro st now k h
    cases hd : dictGet icao st with
    | none =>
      simp only [processRows, hd] at h ⊢
      exact ih st now k h
    | some L =>
      by_cases hf : now - L > COOLDOWN_SECONDS
      · by_cases he : icao = k
        · subst he
          refine ⟨L, hd, ?_, hf, by unfold COOLDOWN_SECONDS at hf; omega⟩
          simp only [processRows, hd, if_pos hf]
          exact (processRows_cooldown g c rest (dictSet st icao now) now icao now
            (dictGet_dictSet_self st icao now) (by unfold COOLDOWN_SECONDS; omega)).2
        · have hkeep : dictGet k (dictSet st icao now) = dictGet k st :=
            dictGet_dictSet_other st icao k now (fun hh => he hh.symm)
          simp only [processRows, hd, if_pos hf] at h ⊢
          rw [← hkeep] at h ⊢
          exact ih (dictSet st icao now) now k h
      · simp only [processRows, hd, if_neg hf] at h ⊢
        exact ih st now k h

/-! Fanout and scheduler lemmas. -/

/-- A destination whose channel does not resolve to a text channel, whose
send permission is revoked, or whose send raises, is never delivered to. -/
theorem guildAttempt_failed (cfg : Config) (k : Guild) (cid : Int)
    (hc : dictGet k.id cfg = some cid)
    (hk : k.isTextChannel cid = false ∨ k.canSendIn cid = false ∨ k.sendFails cid = true) :
    ∀ a, guildAttempt cfg k = some a → a.2 = SendOutcome.failed := by
  intro a ha
  simp only [guildAttempt, hc] at ha
  by_cases h0 : cid = 0
  · rw [if_pos h0] at ha
    cases ha
  · rw [if_neg h0] at ha
    rcases hk with h | h | h
    · rw [h] at ha
      simp at ha
    · rw [h] at ha
      simp at ha
    · by_cases hb : (k.isTextChannel cid && k.canSendIn cid) = true
      · rw [if_pos hb, if_pos h] at ha
        cases ha
        rfl
      · rw [if_neg hb] at ha
        cases ha

/-- Every tick of the loop runs, at its fixed 90-second slot, no matter
which cycles fail. -/
theorem run_loop_ticks (cycle : Nat → LastSeen → Except String (List Effect × LastSeen))
    (n : Nat) :
    ∀ (i : Nat) (st : LastSeen),
      ((run_loop cycle i n st).2).map (fun r => (r.index, r.scheduledAt)) =
        (List.range n).map (fun j => (i + j, LOOP_PERIOD * (i + j))) := by
  induction n with
  | zero =>
    intro i st
    simp [run_loop]
  | succ m ih =>
    intro i st
    cases hc : cycle i st with
    | error e =>
      simp only [run_loop, hc, List.map_cons]
      rw [ih (i + 1)]
      rw [List.range_succ_eq_map, List.map_cons, List.map_map]
      refine congrArg₂ List.cons (by simp) ?_
      apply List.map_congr_left
      intro j _
      simp only [Function.comp_apply]
      have h1 : i + 1 + j = i + Nat.succ j := by omega
      rw [h1]
    | ok res =>
      simp only [run_loop, hc, List.map_cons]
      rw [ih (i + 1)]
      rw [List.range_succ_eq_map, List.map_cons, List.map_map]
      refine congrArg₂ List.cons (by simp) ?_
      apply List.map_congr_left
      intro j _
      simp only [Function.comp_apply]
      have h1 : i + 1 + j = i + Nat.succ j := by omega
      rw [h1]

/-! Claim theorems. -/

/-- C1: Cooldown monotonicity.  If a cycle fires an alert for tracked
entity `E` at `t1` (committing `lastAlertAt[E] = t1`), then a cycle at
`t2 > t1` with `t2 - t1 ≤ 28800` in which `E` is observed does not fire
for `E`, and across the whole window exactly one SightingEvent for `E`
is produced. -/
theorem cooldown_monotonicity (g : List Guild) (c : Config) (rows1 rows2 : List String)
    (st : LastSeen) (E : String) (t1 t2 : Int)
    (h12 : t1 < t2) (hwin : t2 - t1 ≤ COOLDOWN_SECONDS)
    (hfire : firesFor E (processRows g c rows1 st t1).1 = true)
    (hobs : E ∈ rows2) :
    firesFor E (processRows g c rows2 (processRows g c rows1 st t1).2 t2).1 = false ∧
    (sightingEvents (processRows g c rows1 st t1).1).countP (fun ev => ev.entityId == E) +
      (sightingEvents (processRows g c rows2 (processRows g c rows1 st t1).2 t2).1).countP
        (fun ev => ev.entityId == E) = 1 := by
  have hstate := processRows_fired_state g c rows1 st t1 E hfire
  have h2 := processRows_cooldown g c rows2 (processRows g c rows1 st t1).2 t2 E t1 hstate hwin
  have hc1le := processRows_count_le_one g c rows1 st t1 E
  have hc1pos := (firesFor_true_iff E _).mp hfire
  refine ⟨(firesFor_false_iff E _).mpr h2.1, ?_⟩
  omega

/-- C1 witness: a firing at 30000 followed by an observation at 31000. -/
theorem cooldown_monotonicity_witness :
    firesFor "a671d3" (processRows [] [] ["a671d3"]
      (processRows [] [] ["a671d3"] last_seen_times 30000).2 31000).1 = false ∧
    (sightingEvents (processRows [] [] ["a671d3"] last_seen_times 30000).1).countP
        (fun ev => ev.entityId == "a671d3") +
      (sightingEvents (processRows [] [] ["a671d3"]
        (processRows [] [] ["a671d3"] last_seen_times 30000).2 31000).1).countP
        (fun ev => ev.entityId == "a671d3") = 1 :=
  cooldown_monotonicity [] [] ["a671d3"] ["a671d3"] last_seen_times "a671d3" 30000 31000
    (by decide) (by decide) (by decide) (by decide)

/-- C2: A single fetched batch produces at most one SightingEvent per
tracked entity, even when the batch contains duplicate rows for it. -/
theorem batch_dedup (g : List Guild) (c : Config) (rows : List String)
    (st : LastSeen) (now : Int) (E : String) :
    (sightingEvents (processRows g c rows st now).1).countP (fun ev => ev.entityId == E) ≤ 1 :=
  processRows_count_le_one g c rows st now E

/-- C3: The Sighting Evaluator is pure and deterministic: identical
`(observations, trackedEntities, now)` inputs yield identical outputs,
the cycle's events are exactly the pure evaluator's output, and the
cycle's final table is the caller-side commit of that output — the
evaluation itself is a function of its inputs alone. -/
theorem evaluator_pure_deterministic (g : List Guild) (c : Config)
    (rows rows' : List String) (st st' : LastSeen) (now now' : Int)
    (h1 : rows = rows') (h2 : st = st') (h3 : now = now') :
    evaluate rows st now = evaluate rows' st' now' ∧
    sightingEvents (processRows g c rows st now).1 = evaluate rows st now ∧
    (processRows g c rows st now).2 = commitEvents st (evaluate rows st now) := by
  subst h1
  subst h2
  subst h3
  exact ⟨rfl, processRows_events g c rows st now, processRows_state g c rows st now⟩

/-- C3 witness at a concrete firing input. -/
theorem evaluator_pure_deterministic_witness :
    evaluate ["a671d3"] last_seen_times 30000 = evaluate ["a671d3"] last_seen_times 30000 ∧
    sightingEvents (processRows [] [] ["a671d3"] last_seen_times 30000).1 =
      evaluate ["a671d3"] last_seen_times 30000 ∧
    (processRows [] [] ["a671d3"] last_seen_times 30000).2 =
      commitEvents last_seen_times (evaluate ["a671d3"] last_seen_times 30000) :=
  evaluator_pure_deterministic [] [] ["a671d3"] ["a671d3"] last_seen_times last_seen_times
    30000 30000 rfl rfl rfl

/-- C4 counterexample: entity a671d3 is tracked with `lastAlertAt = 100`,
is observed at `t1 = 200` and (would be) at `t2 = 30000` with
`t2 - t1 > 28800`, yet the cycle at `t1` fires nothing for it, refuting
the claim that it fires at both times with no prior-state condition. -/
theorem observed_twice_counterexample :
    (200 : Int) < 30000 ∧ (30000 : Int) - 200 > COOLDOWN_SECONDS ∧
    "a671d3" ∈ ["a671d3"] ∧
    dictGet "a671d3" [("a671d3", (100 : Int))] = some 100 ∧
    firesFor "a671d3" (processRows [] [] ["a671d3"] [("a671d3", (100 : Int))] 200).1 = false := by
  decide

/-- C4 (amended): for `t1 < t2` with `t2 - t1 > 28800`, if `E` is
observed at both times and its prior `lastAlertAt` makes it eligible at
`t1` (more than 28800 seconds before `t1`), then `E` fires at both. -/
theorem observed_twice_fires_when_eligible (g : List Guild) (c : Config)
    (rows1 rows2 : List String) (st : LastSeen) (E : String) (t0 t1 t2 : Int)
    (hm1 : E ∈ rows1) (hm2 : E ∈ rows2)
    (ht : dictGet E st = some t0) (helig : t1 - t0 > COOLDOWN_SECONDS)
    (h12 : t1 < t2) (hgap : t2 - t1 > COOLDOWN_SECONDS) :
    firesFor E (processRows g c rows1 st t1).1 = true ∧
    firesFor E (processRows g c rows2 (processRows g c rows1 st t1).2 t2).1 = true := by
  have f1 := processRows_fires_of_eligible g c rows1 t1 E st t0 hm1 ht helig
  have st2 := processRows_fired_state g c rows1 st t1 E f1
  exact ⟨f1, processRows_fires_of_eligible g c rows2 t2 E _ t1 hm2 st2 hgap⟩

/-- C4 witness: observations at 30000 and 60000 from the initial table. -/
theorem observed_twice_fires_when_eligible_witness :
    firesFor "a671d3" (processRows [] [] ["a671d3"] last_seen_times 30000).1 = true ∧
    firesFor "a671d3" (processRows [] [] ["a671d3"]
      (processRows [] [] ["a671d3"] last_seen_times 30000).2 60000).1 = true :=
  observed_twice_fires_when_eligible [] [] ["a671d3"] ["a671d3"] last_seen_times "a671d3"
    0 30000 60000 (by decide) (by decide) (by decide) (by decide) (by decide) (by decide)

/-- C5: Fetch failure atomicity.  A non-200 status on the token call or
the telemetry call, or a missing/null states payload, ends the cycle
with an empty effect trace (no event, no send, no commit) and the
last-alert table unchanged. -/
theorem fetch_failure_atomic (inp : CycleInput) (g : List Guild) (c : Config) (st : LastSeen)
    (h : inp.tokenStatus ≠ 200 ∨ inp.apiStatus ≠ 200 ∨ inp.states = none) :
    check_aircraft_states inp g c st = ([], st) := by
  unfold check_aircraft_states
  rcases h with h | h | h
  · rw [if_pos h]
  · by_cases h1 : inp.tokenStatus ≠ 200
    · rw [if_pos h1]
    · rw [if_neg h1, if_pos h]
  · by_cases h1 : inp.tokenStatus ≠ 200
    · rw [if_pos h1]
    · rw [if_neg h1]
      by_cases h2 : inp.apiStatus ≠ 200
      · rw [if_pos h2]
      · rw [if_neg h2, h]

/-- C5 witness: an HTTP 500 on the token call. -/
theorem fetch_failure_atomic_witness :
    check_aircraft_states ⟨500, 200, some ["a671d3"], 30000⟩ [] [] last_seen_times =
      ([], last_seen_times) :=
  fetch_failure_atomic ⟨500, 200, some ["a671d3"], 30000⟩ [] [] last_seen_times
    (Or.inl (by decide))

/-- C6: Fanout isolation.  A destination `k` that is configured but
fails (unresolvable channel, revoked send permission, or a raising
send) is merely skipped: every other destination receives the message
exactly as if `k` were absent, in registry order, and the broadcast
itself never raises (it is a total function). -/
theorem fanout_isolation (pre post : List Guild) (k : Guild) (cfg : Config) (msg : String)
    (cid : Int) (hc : dictGet k.id cfg = some cid)
    (hk : k.isTextChannel cid = false ∨ k.canSendIn cid = false ∨ k.sendFails cid = true) :
    deliveredIds (send_alert_to_guilds (pre ++ k :: post) cfg msg) =
      deliveredIds (send_alert_to_guilds pre cfg msg) ++
        deliveredIds (send_alert_to_guilds post cfg msg) := by
  unfold send_alert_to_guilds
  rw [List.filterMap_append, deliveredIds_append]
  congr 1
  rw [List.filterMap_cons]
  cases ha : guildAttempt cfg k with
  | none => rfl
  | some a =>
    have h2 := guildAttempt_failed cfg k cid hc hk a ha
    obtain ⟨aid, ao⟩ := a
    simp only at h2
    subst h2
    simp [deliveredIds, List.filterMap_cons]

/-- C6 witness: destination g2's send raises; g1 and g3 still receive. -/
theorem fanout_isolation_witness :
    deliveredIds (send_alert_to_guilds
        ([⟨"g1", fun _ => true, fun _ => true, fun _ => false⟩] ++
          (⟨"g2", fun _ => true, fun _ => true, fun _ => true⟩ : Guild) ::
          [⟨"g3", fun _ => true, fun _ => true, fun _ => false⟩])
        [("g1", 5), ("g2", 6), ("g3", 7)] "msg") =
      deliveredIds (send_alert_to_guilds [⟨"g1", fun _ => true, fun _ => true, fun _ => false⟩]
        [("g1", 5), ("g2", 6), ("g3", 7)] "msg") ++
        deliveredIds (send_alert_to_guilds [⟨"g3", fun _ => true, fun _ => true, fun _ => false⟩]
          [("g1", 5), ("g2", 6), ("g3", 7)] "msg") :=
  fanout_isolation [⟨"g1", fun _ => true, fun _ => true, fun _ => false⟩]
    [⟨"g3", fun _ => true, fun _ => true, fun _ => false⟩]
    ⟨"g2", fun _ => true, fun _ => true, fun _ => true⟩
    [("g1", 5), ("g2", 6), ("g3", 7)] "msg" 6 (by decide) (Or.inr (Or.inr rfl))

/-- C7: Scheduler resilience.  Over any run of `n` ticks, every tick
executes — each at its fixed 90-second slot `LOOP_PERIOD * i` — no
matter which cycles fail: a failing cycle is recorded and the next tick
is still scheduled. -/
theorem scheduler_resilient (cycle : Nat → LastSeen → Except String (List Effect × LastSeen))
    (n : Nat) (st : LastSeen) :
    ((run_loop cycle 0 n st).2).length = n ∧
    ((run_loop cycle 0 n st).2).map (fun r => (r.index, r.scheduledAt)) =
      (List.range n).map (fun j => (j, LOOP_PERIOD * j)) := by
  have h := run_loop_ticks cycle n 0 st
  simp only [Nat.zero_add] at h
  constructor
  · have h2 := congrArg List.length h
    simpa using h2
  · exact h

/-- C8: When a cycle fires for `E` at `now`, exactly one commit for `E`
is written and it carries `now`; the trace decomposes into per-event
blocks in which the commit directly follows that event's fanout
attempts; and the final table is identical under any other fanout
environment — delivery success is irrelevant to the commit. -/
theorem commit_after_fanout (g1 : List Guild) (c1 : Config) (g2 : List Guild) (c2 : Config)
    (rows : List String) (st : LastSeen) (now : Int) (E : String)
    (hfire : firesFor E (processRows g1 c1 rows st now).1 = true) :
    commitsFor E (processRows g1 c1 rows st now).1 = [now] ∧
    (processRows g1 c1 rows st now).1 =
      (evaluate rows st now).flatMap (fun ev =>
        broadcastEffects g1 c1 (alertMessage ev.label ev.entityId) ++
          [Effect.commit ev.entityId ev.observedAt]) ∧
    (processRows g1 c1 rows st now).2 = (processRows g2 c2 rows st now).2 := by
  refine ⟨?_, processRows_trace g1 c1 rows st now, ?_⟩
  · rw [commitsFor_eq_events]
    have hcount : (sightingEvents (processRows g1 c1 rows st now).1).countP
        (fun ev => ev.entityId == E) = 1 := by
      have hle := processRows_count_le_one g1 c1 rows st now E
      have hpos := (firesFor_true_iff E _).mp hfire
      omega
    rw [List.countP_eq_length_filter] at hcount
    obtain ⟨a, ha⟩ := List.length_eq_one.mp hcount
    rw [ha]
    have hmem : a ∈ sightingEvents (processRows g1 c1 rows st now).1 := by
      have hin : a ∈ (sightingEvents (processRows g1 c1 rows st now).1).filter
          (fun ev => ev.entityId == E) := by
        rw [ha]
        exact List.mem_singleton_self a
      exact (List.mem_filter.mp hin).1
    have hobs := processRows_observedAt g1 c1 rows st now a hmem
    simp [hobs]
  · rw [processRows_state, processRows_state]

/-- C8 witness: one guild whose send raises; the commit still happens
and matches the state of an empty fanout environment. -/
theorem commit_after_fanout_witness :
    commitsFor "a671d3" (processRows [⟨"g", fun _ => true, fun _ => true, fun _ => true⟩]
        [("g", 5)] ["a671d3"] last_seen_times 30000).1 = [30000] ∧
    (processRows [⟨"g", fun _ => true, fun _ => true, fun _ => true⟩] [("g", 5)]
        ["a671d3"] last_seen_times 30000).1 =
      (evaluate ["a671d3"] last_seen_times 30000).flatMap (fun ev =>
        broadcastEffects [⟨"g", fun _ => true, fun _ => true, fun _ => true⟩] [("g", 5)]
          (alertMessage ev.label ev.entityId) ++
          [Effect.commit ev.entityId ev.observedAt]) ∧
    (processRows [⟨"g", fun _ => true, fun _ => true, fun _ => true⟩] [("g", 5)]
        ["a671d3"] last_seen_times 30000).2 =
      (processRows [] [] ["a671d3"] last_seen_times 30000).2 :=
  commit_after_fanout [⟨"g", fun _ => true, fun _ => true, fun _ => true⟩] [("g", 5)] [] []
    ["a671d3"] last_seen_times 30000 "a671d3" (by decide)

/-- C9: SetDestination rejection atomicity.  `setchannel` persists and
upserts exactly when the request has a guild context, a verifiable
member, and the administrator bit; otherwise the reply is an error and
both the in-memory config and the persisted file are untouched. -/
theorem setchannel_atomic (i : Interaction) (cfg : Config) :
    (setchannel i cfg).persisted = (i.hasGuild && i.isMember && i.isAdmin) ∧
    (setchannel i cfg).config =
      (if i.hasGuild && i.isMember && i.isAdmin then dictSet cfg i.guildId i.channelId
       else cfg) ∧
    (((setchannel i cfg).reply = SetChannelReply.ok) ↔
      (i.hasGuild && i.isMember && i.isAdmin) = true) := by
  cases hg : i.hasGuild <;> cases hm : i.isMember <;> cases ha : i.isAdmin <;>
    simp [setchannel, hg, hm, ha]

/-- C10: Every mutation the pass makes to a tracked entity's timestamp
overwrites it with the strictly larger `now`, strictly more than the
cooldown beyond the old value. -/
theorem lastAlert_strictly_increasing (g : List Guild) (c : Config) (rows : List String)
    (st : LastSeen) (now : Int) (k : String)
    (h : dictGet k (processRows g c rows st now).2 ≠ dictGet k st) :
    ∃ told, dictGet k st = some told ∧
      dictGet k (processRows g c rows st now).2 = some now ∧
      now - told > COOLDOWN_SECONDS ∧ told < now :=
  processRows_mutation g c rows st now k h

/-- C10 witness: the initial zero timestamp is overwritten at 30000. -/
theorem lastAlert_strictly_increasing_witness :
    ∃ told, dictGet "a671d3" last_seen_times = some told ∧
      dictGet "a671d3" (processRows [] [] ["a671d3"] last_seen_times 30000).2 = some 30000 ∧
      (30000 : Int) - told > COOLDOWN_SECONDS ∧ told < 30000 :=
  lastAlert_strictly_increasing [] [] ["a671d3"] last_seen_times 30000 "a671d3" (by decide)

end StarshipBot
